import Mathlib

/-!
Shallow embedding of the `motion` crate (src/math.rs, src/kernel.rs,
src/motion_core.rs, src/motion_input.rs) over the reals, together with
proofs checking the specification's claims against it.

Rust `f32` arithmetic is modelled by `ℝ` (exact real arithmetic with
`Real.exp` / `Real.sqrt` for the float intrinsics); fallible operations
return `Except`; the `&mut self` methods of `MotionSpace` are modelled by
state-passing functions that return the mutated space alongside the
`Result` value, so that mutations performed before a failure survive it,
exactly as in Rust.  The async processing loop `core_loop` is modelled as
a function over the list of inputs read from the (order-preserving) input
channel, accumulating the list of outputs sent on the (order-preserving)
output channel; delivery failures of the output channel (a dropped sink)
are modelled by the `sendOk` oracle of `LoopCfg`, and the external
text-embedding function (spec §1 treats it as an external collaborator)
by the `embed` field of `LoopCfg`.
-/

set_option maxHeartbeats 1000000

noncomputable section

namespace Motion

/-! ## math.rs -/

/-- `MathError` from src/math.rs. -/
inductive MathError where
  | DimensionMismatch (left right : Nat)
  | ZeroNorm
deriving DecidableEq

/-- `VecN` from src/math.rs: raw components plus the two lazy caches. -/
structure VecN where
  data : List ℝ
  norm : Option ℝ
  normalized : Option (List ℝ)

/-- `VecN::new`: fresh vector, cold caches. -/
def VecN.new (data : List ℝ) : VecN :=
  { data := data, norm := none, normalized := none }

/-- The norm computed by `VecN::norm`: `sqrt (Σ x_i * x_i)`. -/
def normOf (l : List ℝ) : ℝ :=
  Real.sqrt ((l.map fun x => x * x).sum)

/-- `VecN::norm(&mut self)`: get-or-compute the cached norm; returns the
norm together with the updated vector (the `&mut self` effect). -/
def VecN.normRun (v : VecN) : ℝ × VecN :=
  match v.norm with
  | some n => (n, v)
  | none => (normOf v.data, { v with norm := some (normOf v.data) })

/-- `VecN::normalize(&mut self)`: get-or-compute the cached normalized
form; fails with `ZeroNorm` when the norm is exactly zero.  Note that, as
in the source, `data` is never rewritten: only the `normalized` cache is
populated. -/
def VecN.normalizeRun (v : VecN) : Except MathError (List ℝ) × VecN :=
  match v.normalized with
  | some x => (.ok x, v)
  | none =>
    let p := v.normRun
    if p.1 = 0 then (.error .ZeroNorm, p.2)
    else
      let x := v.data.map fun c => c * (1 / p.1)
      (.ok x, { p.2 with normalized := some x })

/-- `math::add`. -/
def add (a b : List ℝ) : Except MathError (List ℝ) :=
  if a.length ≠ b.length then .error (.DimensionMismatch a.length b.length)
  else .ok (List.zipWith (fun x y => x + y) a b)

/-- `math::sub`. -/
def sub (a b : List ℝ) : Except MathError (List ℝ) :=
  if a.length ≠ b.length then .error (.DimensionMismatch a.length b.length)
  else .ok (List.zipWith (fun x y => x - y) a b)

/-- `math::dot`. -/
def dot (a b : List ℝ) : Except MathError ℝ :=
  if a.length ≠ b.length then .error (.DimensionMismatch a.length b.length)
  else .ok (List.zipWith (fun x y => x * y) a b).sum

/-- `math::scale`: a single slice and a scalar; infallible. -/
def scale (a : List ℝ) (s : ℝ) : List ℝ :=
  a.map fun x => x * s

/-- `math::apply_kernel2`: elementwise combination of two equal-length
slices, `DimensionMismatch` otherwise. -/
def apply_kernel2 (a b : List ℝ) (f : ℝ → ℝ → ℝ) : Except MathError (List ℝ) :=
  if a.length ≠ b.length then .error (.DimensionMismatch a.length b.length)
  else .ok (List.zipWith f a b)

/-! ## kernel.rs -/

/-- `Kernel` from src/kernel.rs (one live variant). -/
inductive Kernel where
  | RBF (gamma : ℝ)

/-- The squared distance `Σ (x_i - y_i)^2` computed inside `rbf_kernel`. -/
def sqDist (x y : List ℝ) : ℝ :=
  (List.zipWith (fun a b => (a - b) * (a - b)) x y).sum

/-- `kernel::rbf_kernel`. -/
def rbf_kernel (x y : List ℝ) (gamma : ℝ) : Except MathError ℝ :=
  if x.length ≠ y.length then .error (.DimensionMismatch x.length y.length)
  else .ok (Real.exp (-gamma * sqDist x y))

/-- `Kernel::apply`. -/
def Kernel.apply (k : Kernel) (x y : List ℝ) : Except MathError ℝ :=
  match k with
  | .RBF gamma => rbf_kernel x y gamma

/-! ## motion_input.rs (the event types the core consumes) -/

/-- `InteractionType` from src/motion_input.rs. -/
inductive InteractionType where
  | PostToUser
  | UserToUser

/-- `Interaction` from src/motion_input.rs. -/
structure Interaction where
  interaction_type : InteractionType
  src_id : String
  dst_id : String
  alpha : ℝ

/-- `PostInput` from src/motion_input.rs. -/
structure PostInput where
  id : String
  user_id : String
  text : String

/-- `UserInput` from src/motion_input.rs. -/
structure UserInput where
  id : String

/-- `MotionInput` from src/motion_input.rs. -/
inductive MotionInput where
  | User (u : UserInput)
  | Post (p : PostInput)
  | Interaction (i : Interaction)

/-! ## motion_core.rs: data model -/

/-- `CoreError` from src/motion_core.rs. -/
inductive CoreError where
  | UserNotFound (user_id : String)
  | PostNotFound (post_id : String)
  | CoordNotLoaded (user_id : String)
  | Math (e : MathError)
  | ChannelError

/-- `MotionUser`. -/
structure MotionUser where
  id : String
  coord : Option VecN
  motion : ℝ

/-- `MotionUser::new`: no coordinate, motion 0 (the `dim` argument is
unused in the source too). -/
def MotionUser.new (id : String) (_dim : Nat) : MotionUser :=
  { id := id, coord := none, motion := 0 }

/-- `MotionPost`. -/
structure MotionPost where
  id : String
  coord : VecN
  features : List VecN

/-- `MotionPost::new`. -/
def MotionPost.new (id : String) (coord : VecN) : MotionPost :=
  { id := id, coord := coord, features := [] }

/-- `MotionEntry`. -/
inductive MotionEntry where
  | User (u : MotionUser)
  | Post (p : MotionPost)

/-- `InteractionResult`. -/
structure InteractionResult where
  src_id : String
  dst_id : String
  weight : ℝ
  similarity : ℝ

/-- `MotionOutput`: note the `Updated` variant exists in the type. -/
inductive MotionOutput where
  | Entered (e : MotionEntry)
  | Updated (e : MotionEntry)
  | InteractionApplied (r : InteractionResult)

/-- `MotionSpace`. -/
structure MotionSpace where
  dim : Nat
  entries : List MotionEntry
  kernel : Kernel

/-- `MotionSpace::new`: empty entry list, RBF kernel with gamma = 2.0. -/
def MotionSpace.new (dim : Nat) : MotionSpace :=
  { dim := dim, entries := [], kernel := .RBF 2.0 }

/-- `MotionSpace::enter`: append, no uniqueness check. -/
def MotionSpace.enter (s : MotionSpace) (e : MotionEntry) : MotionSpace :=
  { s with entries := s.entries ++ [e] }

/-- The `entries.iter().position(User with this id)` scan together with the
subsequent indexing: first user entry with the given id, with its index. -/
def findUserIdx : List MotionEntry → String → Option (Nat × MotionUser)
  | [], _ => none
  | .User u :: rest, uid =>
    if u.id = uid then some (0, u)
    else (findUserIdx rest uid).map fun x => (x.1 + 1, x.2)
  | .Post _ :: rest, uid => (findUserIdx rest uid).map fun x => (x.1 + 1, x.2)

/-- The `entries.iter().position(Post with this id)` scan together with the
subsequent indexing: first post entry with the given id, with its index. -/
def findPostIdx : List MotionEntry → String → Option (Nat × MotionPost)
  | [], _ => none
  | .Post p :: rest, pid =>
    if p.id = pid then some (0, p)
    else (findPostIdx rest pid).map fun x => (x.1 + 1, x.2)
  | .User _ :: rest, pid => (findPostIdx rest pid).map fun x => (x.1 + 1, x.2)

/-! ## motion_core.rs: the two interaction updates -/

/-- `MotionSpace::apply_user_to_user`.  Returns the `Result` together with
the (possibly mutated) space. -/
def MotionSpace.apply_user_to_user (s : MotionSpace) (actor_id target_id : String)
    (alpha : ℝ) : Except CoreError InteractionResult × MotionSpace :=
  match findUserIdx s.entries actor_id with
  | none => (.error (.UserNotFound actor_id), s)
  | some (actor_idx, a) =>
    match findUserIdx s.entries target_id with
    | none => (.error (.UserNotFound target_id), s)
    | some (target_idx, t) =>
      match a.coord with
      | none => (.error (.CoordNotLoaded actor_id), s)
      | some actor_coord =>
        match t.coord with
        | none => (.error (.CoordNotLoaded target_id), s)
        | some target_coord =>
          let actor_data := actor_coord.data
          let target_data := target_coord.data
          match s.kernel.apply actor_data target_data with
          | .error e => (.error (.Math e), s)
          | .ok similarity =>
            let weight := 1 - Real.exp (-alpha * similarity)
            let step := 0.5 * weight
            match apply_kernel2 actor_data target_data
                (fun a t => a * (1 - step) + t * step) with
            | .error e => (.error (.Math e), s)
            | .ok new_actor_data =>
              match apply_kernel2 target_data actor_data
                  (fun t a => t * (1 - step) + a * step) with
              | .error e => (.error (.Math e), s)
              | .ok new_target_data =>
                let new_actor_coord := (VecN.new new_actor_data).normalizeRun.2
                let new_target_coord := (VecN.new new_target_data).normalizeRun.2
                let decay : ℝ := 0.02
                let new_target_motion := (1 - decay) * t.motion + 1.0 * weight
                let new_actor_motion := (1 - decay) * a.motion + 0.5 * weight
                let entries1 := s.entries.set target_idx
                  (.User { t with coord := some new_target_coord, motion := new_target_motion })
                let entries2 := entries1.set actor_idx
                  (.User { a with coord := some new_actor_coord, motion := new_actor_motion })
                (.ok { src_id := actor_id, dst_id := target_id,
                       weight := weight, similarity := similarity },
                 { s with entries := entries2 })

/-- The tail of `MotionSpace::apply_post_to_user` after the post was
located and the user was located-or-created and coordinate-seeded:
`entries1` is the entry list after those mutations, `user_idx` the user's
slot, `u1` the user as stored there (coordinate present), `user_data` and
`post_data` the cloned raw data. -/
def p2u_go (s : MotionSpace) (entries1 : List MotionEntry) (user_idx : Nat)
    (u1 : MotionUser) (user_data post_data : List ℝ) (user_id post_id : String)
    (alpha : ℝ) : Except CoreError InteractionResult × MotionSpace :=
  match s.kernel.apply user_data post_data with
  | .error e => (.error (.Math e), { s with entries := entries1 })
  | .ok similarity =>
    let weight := 1 - Real.exp (-alpha * similarity)
    match apply_kernel2 user_data post_data
        (fun u p => u * (1 - weight) + p * weight) with
    | .error e => (.error (.Math e), { s with entries := entries1 })
    | .ok new_data =>
      let new_coord := (VecN.new new_data).normalizeRun.2
      let decay : ℝ := 0.02
      let new_motion := (1 - decay) * u1.motion + 1.0 * weight
      let entries2 := entries1.set user_idx
        (.User { u1 with coord := some new_coord, motion := new_motion })
      (.ok { src_id := post_id, dst_id := user_id,
             weight := weight, similarity := similarity },
       { s with entries := entries2 })

/-- `MotionSpace::apply_post_to_user`.  The user is auto-created when
absent and its coordinate is seeded from the post's coordinate when
absent (`get_or_insert_with`); both mutations persist even when a later
step fails. -/
def MotionSpace.apply_post_to_user (s : MotionSpace) (user_id post_id : String)
    (alpha : ℝ) : Except CoreError InteractionResult × MotionSpace :=
  match findPostIdx s.entries post_id with
  | none => (.error (.PostNotFound post_id), s)
  | some (_post_idx, p) =>
    match findUserIdx s.entries user_id with
    | some (user_idx, u0) =>
      match u0.coord with
      | some c =>
        p2u_go s s.entries user_idx u0 c.data p.coord.data user_id post_id alpha
      | none =>
        let u1 : MotionUser := { u0 with coord := some p.coord }
        p2u_go s (s.entries.set user_idx (.User u1)) user_idx u1
          p.coord.data p.coord.data user_id post_id alpha
    | none =>
      let u1 : MotionUser := { MotionUser.new user_id s.dim with coord := some p.coord }
      p2u_go s (s.entries ++ [.User u1]) s.entries.length u1
        p.coord.data p.coord.data user_id post_id alpha

/-- `MotionSpace::apply_interaction`: dispatch by tag.  For `PostToUser`
the destination is the user and the source the post. -/
def MotionSpace.apply_interaction (s : MotionSpace) (i : Interaction) :
    Except CoreError InteractionResult × MotionSpace :=
  match i.interaction_type with
  | .PostToUser => s.apply_post_to_user i.dst_id i.src_id i.alpha
  | .UserToUser => s.apply_user_to_user i.src_id i.dst_id i.alpha

/-! ## motion_core.rs: the processing loop -/

/-- External collaborators of the loop: the text-embedding function
(`embed_post`, spec §1 external) and the output channel, whose k-th send
succeeds iff `sendOk k` (the sink may drop the receiver at any point). -/
structure LoopCfg where
  embed : String → List ℝ
  sendOk : Nat → Bool

/-- One `tx.send(..)` on the output channel: appends the event when the
send succeeds, otherwise reports `ChannelError` (`map_err` in the source). -/
def sendOut (cfg : LoopCfg) (outs : List MotionOutput) (o : MotionOutput) :
    List MotionOutput × Option CoreError :=
  if cfg.sendOk outs.length then (outs ++ [o], none) else (outs, some .ChannelError)

/-- `let res = self.apply_interaction(interaction)?;` followed by sending
`InteractionApplied(res)` — the shared tail of the `Post` and
`Interaction` arms of the loop. -/
def applyAndSend (cfg : LoopCfg) (s : MotionSpace) (outs : List MotionOutput)
    (i : Interaction) : MotionSpace × List MotionOutput × Option CoreError :=
  match s.apply_interaction i with
  | (.error e, s1) => (s1, outs, some e)
  | (.ok r, s1) =>
    let so := sendOut cfg outs (.InteractionApplied r)
    (s1, so.1, so.2)

/-- Is this entry a user with the given id (`matches!` in the unseen-user
check of the `Post` arm)? -/
def isUserWithId : MotionEntry → String → Bool
  | .User u, uid => u.id == uid
  | .Post _, _ => false

/-- The body of `core_loop` for a single input event, returning the new
space, the outputs accumulated so far, and the error that aborted the
loop, if any. -/
def stepInput (cfg : LoopCfg) (s : MotionSpace) (outs : List MotionOutput) :
    MotionInput → MotionSpace × List MotionOutput × Option CoreError
  | .Post post =>
    let embedding := VecN.new (cfg.embed post.text)
    let entry := MotionEntry.Post (MotionPost.new post.id embedding)
    let s1 := s.enter entry
    match sendOut cfg outs (.Entered entry) with
    | (outs1, some e) => (s1, outs1, some e)
    | (outs1, none) =>
      if s1.entries.all fun e => !(isUserWithId e post.user_id) then
        let user_entry := MotionEntry.User (MotionUser.new post.user_id s1.dim)
        let s2 := s1.enter user_entry
        match sendOut cfg outs1 (.Entered user_entry) with
        | (outs2, some e) => (s2, outs2, some e)
        | (outs2, none) =>
          applyAndSend cfg s2 outs2
            { interaction_type := .PostToUser, src_id := post.id,
              dst_id := post.user_id, alpha := 0.5 }
      else
        applyAndSend cfg s1 outs1
          { interaction_type := .PostToUser, src_id := post.id,
            dst_id := post.user_id, alpha := 0.5 }
  | .User user =>
    let entry := MotionEntry.User (MotionUser.new user.id s.dim)
    let s1 := s.enter entry
    let so := sendOut cfg outs (.Entered entry)
    (s1, so.1, so.2)
  | .Interaction it => applyAndSend cfg s outs it

/-- `MotionSpace::core_loop`: consume the input events in arrival order,
stopping with the first error; `outs` accumulates the events sent on the
output channel in send order. -/
def core_loop (cfg : LoopCfg) (s : MotionSpace) (outs : List MotionOutput) :
    List MotionInput → MotionSpace × List MotionOutput × Option CoreError
  | [] => (s, outs, none)
  | i :: rest =>
    match stepInput cfg s outs i with
    | (s1, outs1, none) => core_loop cfg s1 outs1 rest
    | (s1, outs1, some e) => (s1, outs1, some e)

/-! ## Observation helpers for statements -/

/-- Raw coordinate data of the first user entry with this id. -/
def userDataOf (s : MotionSpace) (uid : String) : Option (List ℝ) :=
  (findUserIdx s.entries uid).bind fun x => x.2.coord.map fun c => c.data

/-- Motion of the first user entry with this id. -/
def userMotion (s : MotionSpace) (uid : String) : Option ℝ :=
  (findUserIdx s.entries uid).map fun x => x.2.motion

/-- Raw coordinate data of the first post entry with this id. -/
def postDataOf (s : MotionSpace) (pid : String) : Option (List ℝ) :=
  (findPostIdx s.entries pid).map fun x => x.2.coord.data

/-- Identity of an entry: (is-user, id). -/
def entryKey : MotionEntry → Bool × String
  | .User u => (true, u.id)
  | .Post p => (false, p.id)

/-- All user entries of the space carry non-negative motion. -/
def motionsOk (s : MotionSpace) : Prop :=
  ∀ u : MotionUser, MotionEntry.User u ∈ s.entries → 0 ≤ u.motion

/-- Spaces reachable from a fresh space by entering fresh users (motion 0,
as `MotionUser::new` creates them), entering posts, and applying the two
interaction updates with non-negative alpha. -/
inductive Reachable : MotionSpace → Prop where
  | init (dim : Nat) : Reachable (MotionSpace.new dim)
  | enter_user (s : MotionSpace) (id : String) (dim : Nat) :
      Reachable s → Reachable (s.enter (.User (MotionUser.new id dim)))
  | enter_post (s : MotionSpace) (p : MotionPost) :
      Reachable s → Reachable (s.enter (.Post p))
  | p2u (s : MotionSpace) (uid pid : String) (alpha : ℝ) :
      Reachable s → 0 ≤ alpha → Reachable (s.apply_post_to_user uid pid alpha).2
  | u2u (s : MotionSpace) (aid tid : String) (alpha : ℝ) :
      Reachable s → 0 ≤ alpha → Reachable (s.apply_user_to_user aid tid alpha).2

/-! ## Concrete fixtures used by counterexamples and witnesses -/

/-- A loop configuration with a trivial embedding and a sink that never
drops. -/
def cfg9 : LoopCfg :=
  { embed := fun _ => [], sendOk := fun _ => true }

/-- Two users at coordinate [2] in a dimension-1 space. -/
def S2 : MotionSpace :=
  { dim := 1,
    entries := [ .User { id := "a", coord := some (VecN.new [2]), motion := 0 },
                 .User { id := "b", coord := some (VecN.new [2]), motion := 0 } ],
    kernel := .RBF 2 }

/-- A post at [2] and a user at [2] in a dimension-1 space. -/
def S3 : MotionSpace :=
  { dim := 1,
    entries := [ .Post (MotionPost.new "p" (VecN.new [2])),
                 .User { id := "u", coord := some (VecN.new [2]), motion := 0 } ],
    kernel := .RBF 2 }

/-- A fresh space into which a post at [1] has been entered. -/
def S4 : MotionSpace :=
  (MotionSpace.new 1).enter (.Post (MotionPost.new "p" (VecN.new [1])))

/-- A post at [1] and a user at [1] in a dimension-1 space. -/
def S9 : MotionSpace :=
  { dim := 1,
    entries := [ .Post (MotionPost.new "p" (VecN.new [1])),
                 .User { id := "u", coord := some (VecN.new [1]), motion := 0 } ],
    kernel := .RBF 2 }

/-- The space `S9` after one Post→User interaction with alpha = 0: the
user's stored vector also carries the populated norm / normalized caches. -/
def S9b : MotionSpace :=
  { dim := 1,
    entries := [ .Post (MotionPost.new "p" (VecN.new [1])),
                 .User { id := "u", coord := some ⟨[1], some 1, some [1]⟩, motion := 0 } ],
    kernel := .RBF 2 }

/-- A single concrete interaction input. -/
def its9 : List Interaction :=
  [{ interaction_type := .PostToUser, src_id := "p", dst_id := "u", alpha := 0 }]

/-! ## Helper lemmas -/

lemma sqDist_self : ∀ l : List ℝ, sqDist l l = 0 := by
  intro l
  induction l with
  | nil => simp [sqDist]
  | cons a rest ih => simp only [sqDist, List.zipWith_cons_cons, List.sum_cons] at ih ⊢; rw [ih]; ring

lemma sqDist_nonneg : ∀ x y : List ℝ, 0 ≤ sqDist x y := by
  intro x
  induction x with
  | nil => intro y; simp [sqDist]
  | cons a rest ih =>
    intro y
    cases y with
    | nil => simp [sqDist]
    | cons b ys =>
      simp only [sqDist, List.zipWith_cons_cons, List.sum_cons]
      have h1 : 0 ≤ (a - b) * (a - b) := mul_self_nonneg _
      have h2 := ih ys
      simp only [sqDist] at h2
      linarith

lemma sqDist_blend (w : ℝ) :
    ∀ u p : List ℝ, u.length = p.length →
      sqDist (List.zipWith (fun a b => a * (1 - w) + b * w) u p) p =
        (1 - w) * (1 - w) * sqDist u p := by
  intro u
  induction u with
  | nil => intro p h; simp [sqDist]
  | cons a rest ih =>
    intro p h
    cases p with
    | nil => simp at h
    | cons b ps =>
      simp only [List.length_cons, Nat.add_right_cancel_iff] at h
      simp only [List.zipWith_cons_cons, sqDist, List.sum_cons] at ih ⊢
      rw [ih ps h]
      ring

lemma findUserIdx_id : ∀ {l : List MotionEntry} {uid : String} {i : Nat} {u : MotionUser},
    findUserIdx l uid = some (i, u) → u.id = uid := by
  intro l
  induction l with
  | nil => intro uid i u h; simp [findUserIdx] at h
  | cons e rest ih =>
    intro uid i u h
    cases e with
    | User v =>
      by_cases hv : v.id = uid
      · simp only [findUserIdx, if_pos hv, Option.some.injEq, Prod.mk.injEq] at h
        rw [← h.2]; exact hv
      · simp only [findUserIdx, if_neg hv, Option.map_eq_some'] at h
        obtain ⟨x, hx, hxy⟩ := h
        have := ih hx
        rw [← (Prod.mk.injEq _ _ _ _).mp hxy |>.2]; exact this
    | Post p =>
      simp only [findUserIdx, Option.map_eq_some'] at h
      obtain ⟨x, hx, hxy⟩ := h
      have := ih hx
      rw [← (Prod.mk.injEq _ _ _ _).mp hxy |>.2]; exact this

lemma findUserIdx_get : ∀ {l : List MotionEntry} {uid : String} {i : Nat} {u : MotionUser},
    findUserIdx l uid = some (i, u) → l[i]? = some (.User u) := by
  intro l
  induction l with
  | nil => intro uid i u h; simp [findUserIdx] at h
  | cons e rest ih =>
    intro uid i u h
    cases e with
    | User v =>
      by_cases hv : v.id = uid
      · simp only [findUserIdx, if_pos hv, Option.some.injEq, Prod.mk.injEq] at h
        obtain ⟨h1, h2⟩ := h
        subst h2
        rw [← h1]
        simp
      · simp only [findUserIdx, if_neg hv, Option.map_eq_some'] at h
        obtain ⟨⟨j, w⟩, hx, hxy⟩ := h
        obtain ⟨h1, h2⟩ := (Prod.mk.injEq _ _ _ _).mp hxy
        subst h2
        rw [← h1]
        simpa using ih hx
    | Post p =>
      simp only [findUserIdx, Option.map_eq_some'] at h
      obtain ⟨⟨j, w⟩, hx, hxy⟩ := h
      obtain ⟨h1, h2⟩ := (Prod.mk.injEq _ _ _ _).mp hxy
      subst h2
      rw [← h1]
      simpa using ih hx

lemma findUserIdx_mem {l : List MotionEntry} {uid : String} {i : Nat} {u : MotionUser}
    (h : findUserIdx l uid = some (i, u)) : MotionEntry.User u ∈ l :=
  List.getElem?_mem (findUserIdx_get h)

lemma findPostIdx_get : ∀ {l : List MotionEntry} {pid : String} {i : Nat} {p : MotionPost},
    findPostIdx l pid = some (i, p) → l[i]? = some (.Post p) := by
  intro l
  induction l with
  | nil => intro pid i p h; simp [findPostIdx] at h
  | cons e rest ih =>
    intro pid i p h
    cases e with
    | Post q =>
      by_cases hq : q.id = pid
      · simp only [findPostIdx, if_pos hq, Option.some.injEq, Prod.mk.injEq] at h
        obtain ⟨h1, h2⟩ := h
        subst h2
        rw [← h1]
        simp
      · simp only [findPostIdx, if_neg hq, Option.map_eq_some'] at h
        obtain ⟨⟨j, w⟩, hx, hxy⟩ := h
        obtain ⟨h1, h2⟩ := (Prod.mk.injEq _ _ _ _).mp hxy
        subst h2
        rw [← h1]
        simpa using ih hx
    | User v =>
      simp only [findPostIdx, Option.map_eq_some'] at h
      obtain ⟨⟨j, w⟩, hx, hxy⟩ := h
      obtain ⟨h1, h2⟩ := (Prod.mk.injEq _ _ _ _).mp hxy
      subst h2
      rw [← h1]
      simpa using ih hx

lemma findUserIdx_set_user : ∀ {l : List MotionEntry} {uid : String} {i : Nat} {u : MotionUser},
    findUserIdx l uid = some (i, u) → ∀ u' : MotionUser, u'.id = uid →
      findUserIdx (l.set i (.User u')) uid = some (i, u') := by
  intro l
  induction l with
  | nil => intro uid i u h; simp [findUserIdx] at h
  | cons e rest ih =>
    intro uid i u h u' hid
    cases e with
    | User v =>
      by_cases hv : v.id = uid
      · simp only [findUserIdx, if_pos hv, Option.some.injEq, Prod.mk.injEq] at h
        rw [← h.1]
        simp [findUserIdx, hid]
      · simp only [findUserIdx, if_neg hv, Option.map_eq_some'] at h
        obtain ⟨⟨j, w⟩, hx, hxy⟩ := h
        obtain ⟨h1, h2⟩ := (Prod.mk.injEq _ _ _ _).mp hxy
        subst h2
        rw [← h1]
        simp only [List.set_cons_succ, findUserIdx, if_neg hv]
        rw [ih hx u' hid]
        rfl
    | Post p =>
      simp only [findUserIdx, Option.map_eq_some'] at h
      obtain ⟨⟨j, w⟩, hx, hxy⟩ := h
      obtain ⟨h1, h2⟩ := (Prod.mk.injEq _ _ _ _).mp hxy
      subst h2
      rw [← h1]
      simp only [List.set_cons_succ, findUserIdx]
      rw [ih hx u' hid]
      rfl

lemma findUserIdx_append_none : ∀ {l : List MotionEntry} {uid : String},
    findUserIdx l uid = none → ∀ u : MotionUser, u.id = uid →
      findUserIdx (l ++ [.User u]) uid = some (l.length, u) := by
  intro l
  induction l with
  | nil => intro uid _ u hid; simp [findUserIdx, hid]
  | cons e rest ih =>
    intro uid h u hid
    cases e with
    | User v =>
      by_cases hv : v.id = uid
      · simp [findUserIdx, hv] at h
      · simp only [findUserIdx, if_neg hv, Option.map_eq_none'] at h
        simp only [List.cons_append, findUserIdx, if_neg hv, List.append_eq]
        rw [ih h u hid]
        rfl
    | Post p =>
      simp only [findUserIdx, Option.map_eq_none'] at h
      simp only [List.cons_append, findUserIdx, List.append_eq]
      rw [ih h u hid]
      rfl

lemma findPostIdx_set_user : ∀ {l : List MotionEntry} {i : Nat} {v : MotionUser},
    l[i]? = some (.User v) → ∀ (u' : MotionUser) (pid : String),
      findPostIdx (l.set i (.User u')) pid = findPostIdx l pid := by
  intro l
  induction l with
  | nil => intro i v h; simp at h
  | cons e rest ih =>
    intro i v h u' pid
    cases i with
    | zero =>
      simp only [List.getElem?_cons_zero, Option.some.injEq] at h
      subst h
      simp [findPostIdx]
    | succ j =>
      simp only [List.getElem?_cons_succ] at h
      cases e with
      | User w => simp only [List.set_cons_succ, findPostIdx]; rw [ih h u' pid]
      | Post q =>
        by_cases hq : q.id = pid
        · simp [List.set_cons_succ, findPostIdx, hq]
        · simp only [List.set_cons_succ, findPostIdx, if_neg hq]
          rw [ih h u' pid]

lemma findPostIdx_append : ∀ {l : List MotionEntry} {pid : String} {x : Nat × MotionPost},
    findPostIdx l pid = some x → ∀ l2 : List MotionEntry,
      findPostIdx (l ++ l2) pid = some x := by
  intro l
  induction l with
  | nil => intro pid x h; simp [findPostIdx] at h
  | cons e rest ih =>
    intro pid x h l2
    cases e with
    | Post q =>
      by_cases hq : q.id = pid
      · simp only [findPostIdx, if_pos hq] at h ⊢; exact h
      · simp only [findPostIdx, if_neg hq, Option.map_eq_some'] at h
        obtain ⟨y, hy, hxy⟩ := h
        simp only [List.cons_append, findPostIdx, if_neg hq, List.append_eq]
        rw [ih hy l2]
        simpa using hxy
    | User v =>
      simp only [findPostIdx, Option.map_eq_some'] at h
      obtain ⟨y, hy, hxy⟩ := h
      simp only [List.cons_append, findPostIdx, List.append_eq]
      rw [ih hy l2]
      simpa using hxy

lemma keys_set_user : ∀ {l : List MotionEntry} {i : Nat} {v : MotionUser},
    l[i]? = some (.User v) → ∀ u' : MotionUser, u'.id = v.id →
      (l.set i (.User u')).map entryKey = l.map entryKey := by
  intro l
  induction l with
  | nil => intro i v h; simp at h
  | cons e rest ih =>
    intro i v h u' hid
    cases i with
    | zero =>
      simp only [List.getElem?_cons_zero, Option.some.injEq] at h
      subst h
      simp [entryKey, hid]
    | succ j =>
      simp only [List.getElem?_cons_succ] at h
      simp only [List.set_cons_succ, List.map_cons]
      rw [ih h u' hid]

lemma set_append_len {α : Type} : ∀ (l : List α) (x y : α),
    (l ++ [x]).set l.length y = l ++ [y] := by
  intro l
  induction l with
  | nil => intro x y; rfl
  | cons a rest ih => intro x y; simp only [List.cons_append, List.length_cons,
      List.set_cons_succ, ih]

lemma normalizeRun_data (v : VecN) : v.normalizeRun.2.data = v.data := by
  obtain ⟨d, n, nn⟩ := v
  cases nn <;> cases n <;> simp [VecN.normalizeRun, VecN.normRun] <;> split <;> rfl

lemma apply_kernel2_ok {a b : List ℝ} {f : ℝ → ℝ → ℝ} (h : a.length = b.length) :
    apply_kernel2 a b f = .ok (List.zipWith f a b) := by
  simp [apply_kernel2, h]

lemma apply_kernel2_err {a b : List ℝ} {f : ℝ → ℝ → ℝ} (h : a.length ≠ b.length) :
    apply_kernel2 a b f = .error (.DimensionMismatch a.length b.length) := by
  simp [apply_kernel2, h]

lemma rbf_kernel_ok {x y : List ℝ} {γ : ℝ} (h : x.length = y.length) :
    rbf_kernel x y γ = .ok (Real.exp (-γ * sqDist x y)) := by
  simp [rbf_kernel, h]

lemma rbf_kernel_err {x y : List ℝ} {γ : ℝ} (h : x.length ≠ y.length) :
    rbf_kernel x y γ = .error (.DimensionMismatch x.length y.length) := by
  simp [rbf_kernel, h]

lemma weight_nonneg {α E : ℝ} (hα : 0 ≤ α) (hE : 0 < E) :
    0 ≤ 1 - Real.exp (-α * E) := by
  have h1 : -α * E ≤ 0 := by nlinarith [mul_nonneg hα hE.le]
  have h2 := Real.exp_le_one_iff.mpr h1
  linarith

lemma weight_lt_one (x : ℝ) : 1 - Real.exp x < 1 := by
  have := Real.exp_pos x
  linarith

lemma p2u_go_ok_eq {s : MotionSpace} {γ : ℝ} (hk : s.kernel = .RBF γ)
    (entries1 : List MotionEntry) (user_idx : Nat) (u1 : MotionUser)
    {user_data post_data : List ℝ} (hlen : user_data.length = post_data.length)
    (user_id post_id : String) (alpha : ℝ) :
    p2u_go s entries1 user_idx u1 user_data post_data user_id post_id alpha =
      (.ok { src_id := post_id, dst_id := user_id,
             weight := 1 - Real.exp (-alpha * Real.exp (-γ * sqDist user_data post_data)),
             similarity := Real.exp (-γ * sqDist user_data post_data) },
       { s with entries := entries1.set user_idx (.User { u1 with
           coord := some ((VecN.new (List.zipWith
             (fun u p => u * (1 - (1 - Real.exp (-alpha * Real.exp (-γ * sqDist user_data post_data)))) +
               p * (1 - Real.exp (-alpha * Real.exp (-γ * sqDist user_data post_data))))
             user_data post_data)).normalizeRun.2),
           motion := (1 - 0.02) * u1.motion +
             1.0 * (1 - Real.exp (-alpha * Real.exp (-γ * sqDist user_data post_data))) }) }) := by
  unfold p2u_go
  rw [hk]
  simp only [Kernel.apply, rbf_kernel_ok hlen, apply_kernel2_ok hlen]

lemma p2u_go_err {s : MotionSpace} {γ : ℝ} (hk : s.kernel = .RBF γ)
    (entries1 : List MotionEntry) (user_idx : Nat) (u1 : MotionUser)
    {user_data post_data : List ℝ} (hlen : user_data.length ≠ post_data.length)
    (user_id post_id : String) (alpha : ℝ) :
    p2u_go s entries1 user_idx u1 user_data post_data user_id post_id alpha =
      (.error (.Math (.DimensionMismatch user_data.length post_data.length)),
       { s with entries := entries1 }) := by
  unfold p2u_go
  rw [hk]
  simp only [Kernel.apply, rbf_kernel_err hlen]

lemma p2u_go_motions {s : MotionSpace} (entries1 : List MotionEntry) (user_idx : Nat)
    (u1 : MotionUser) (user_data post_data : List ℝ) (user_id post_id : String) {α : ℝ}
    (hα : 0 ≤ α) (h1 : ∀ u : MotionUser, MotionEntry.User u ∈ entries1 → 0 ≤ u.motion)
    (hu1 : 0 ≤ u1.motion) :
    ∀ u : MotionUser, MotionEntry.User u ∈
      (p2u_go s entries1 user_idx u1 user_data post_data user_id post_id α).2.entries →
        0 ≤ u.motion := by
  rcases hkk : s.kernel with ⟨γ⟩
  by_cases hlen : user_data.length = post_data.length
  · rw [p2u_go_ok_eq hkk entries1 user_idx u1 hlen user_id post_id α]
    intro u hu
    rcases List.mem_or_eq_of_mem_set hu with hu2 | heq
    · exact h1 u hu2
    · simp only [MotionEntry.User.injEq] at heq
      subst heq
      have hw : 0 ≤ 1 - Real.exp (-α * Real.exp (-γ * sqDist user_data post_data)) :=
        weight_nonneg hα (Real.exp_pos _)
      simp only
      have h98 : (0 : ℝ) ≤ (1 - 0.02) * u1.motion := by
        have : (0:ℝ) ≤ (1 - 0.02 : ℝ) := by norm_num
        exact mul_nonneg this hu1
      nlinarith
  · rw [p2u_go_err hkk entries1 user_idx u1 hlen user_id post_id α]
    exact h1

lemma p2u_motions {s : MotionSpace} {uid pid : String} {α : ℝ}
    (hα : 0 ≤ α) (h : motionsOk s) :
    motionsOk (s.apply_post_to_user uid pid α).2 := by
  unfold MotionSpace.apply_post_to_user
  cases hfp : findPostIdx s.entries pid with
  | none => exact h
  | some x =>
    obtain ⟨pi, p⟩ := x
    dsimp only
    cases hfu : findUserIdx s.entries uid with
    | some y =>
      obtain ⟨ui, u0⟩ := y
      dsimp only
      cases hc : u0.coord with
      | some c =>
        exact p2u_go_motions s.entries ui u0 c.data p.coord.data uid pid hα h
          (h u0 (findUserIdx_mem hfu))
      | none =>
        refine p2u_go_motions _ ui _ p.coord.data p.coord.data uid pid hα ?_ ?_
        · intro u hu
          rcases List.mem_or_eq_of_mem_set hu with hu2 | heq
          · exact h u hu2
          · simp only [MotionEntry.User.injEq] at heq
            subst heq
            exact h u0 (findUserIdx_mem hfu)
        · exact h u0 (findUserIdx_mem hfu)
    | none =>
      dsimp only
      refine p2u_go_motions _ s.entries.length _ p.coord.data p.coord.data uid pid hα ?_ ?_
      · intro u hu
        rcases List.mem_append.mp hu with hu2 | hu2
        · exact h u hu2
        · simp only [List.mem_singleton, MotionEntry.User.injEq] at hu2
          subst hu2
          simp [MotionUser.new]
      · simp [MotionUser.new]

lemma u2u_motions {s : MotionSpace} {aid tid : String} {α : ℝ}
    (hα : 0 ≤ α) (h : motionsOk s) :
    motionsOk (s.apply_user_to_user aid tid α).2 := by
  unfold MotionSpace.apply_user_to_user
  cases hfa : findUserIdx s.entries aid with
  | none => exact h
  | some x =>
    obtain ⟨ai, a⟩ := x
    dsimp only
    cases hft : findUserIdx s.entries tid with
    | none => exact h
    | some y =>
      obtain ⟨ti, t⟩ := y
      dsimp only
      cases hac : a.coord with
      | none => exact h
      | some ac =>
        dsimp only
        cases htc : t.coord with
        | none => exact h
        | some tc =>
          dsimp only
          rcases hkk : s.kernel with ⟨γ⟩
          simp only [Kernel.apply]
          by_cases hlen : ac.data.length = tc.data.length
          · simp only [rbf_kernel_ok hlen, apply_kernel2_ok hlen, apply_kernel2_ok hlen.symm]
            intro u hu
            have hw : 0 ≤ 1 - Real.exp (-α * Real.exp (-γ * sqDist ac.data tc.data)) :=
              weight_nonneg hα (Real.exp_pos _)
            have hA : 0 ≤ a.motion := h a (findUserIdx_mem hfa)
            have hT : 0 ≤ t.motion := h t (findUserIdx_mem hft)
            rcases List.mem_or_eq_of_mem_set hu with hu1 | heq
            · rcases List.mem_or_eq_of_mem_set hu1 with hu2 | heq
              · exact h u hu2
              · simp only [MotionEntry.User.injEq] at heq
                subst heq
                simp only
                nlinarith
            · simp only [MotionEntry.User.injEq] at heq
              subst heq
              simp only
              nlinarith
          · simp only [rbf_kernel_err hlen]
            exact h

lemma p2u_go_keys {s : MotionSpace} (entries1 : List MotionEntry) (user_idx : Nat)
    (u1 : MotionUser) {v : MotionUser} (hget : entries1[user_idx]? = some (.User v))
    (hid : u1.id = v.id) (user_data post_data : List ℝ) (user_id post_id : String)
    (α : ℝ) :
    ((p2u_go s entries1 user_idx u1 user_data post_data user_id post_id α).2.entries).map
      entryKey = entries1.map entryKey := by
  rcases hkk : s.kernel with ⟨γ⟩
  by_cases hlen : user_data.length = post_data.length
  · rw [p2u_go_ok_eq hkk entries1 user_idx u1 hlen user_id post_id α]
    exact keys_set_user hget _ hid
  · rw [p2u_go_err hkk entries1 user_idx u1 hlen user_id post_id α]

lemma p2u_keys (s : MotionSpace) (uid pid : String) (α : ℝ) :
    (s.entries.map entryKey) <+: ((s.apply_post_to_user uid pid α).2.entries.map entryKey) := by
  unfold MotionSpace.apply_post_to_user
  cases hfp : findPostIdx s.entries pid with
  | none => exact List.prefix_refl _
  | some x =>
    obtain ⟨pi, p⟩ := x
    dsimp only
    cases hfu : findUserIdx s.entries uid with
    | some y =>
      obtain ⟨ui, u0⟩ := y
      dsimp only
      have hget := findUserIdx_get hfu
      cases hc : u0.coord with
      | some c =>
        dsimp only
        rw [p2u_go_keys s.entries ui u0 hget rfl c.data p.coord.data uid pid α]
      | none =>
        dsimp only
        have hlt : ui < s.entries.length := by
          rcases List.getElem?_eq_some.mp hget with ⟨hw, _⟩
          exact hw
        have hget1 : (s.entries.set ui
            (.User { u0 with coord := some p.coord }))[ui]? =
              some (.User { u0 with coord := some p.coord }) :=
          List.getElem?_set_eq_of_lt _ (by simpa using hlt)
        rw [p2u_go_keys _ ui _ hget1 rfl p.coord.data p.coord.data uid pid α]
        rw [keys_set_user hget { u0 with coord := some p.coord } rfl]
    | none =>
      dsimp only
      have hget1 : (s.entries ++
          [.User { MotionUser.new uid s.dim with coord := some p.coord }])[s.entries.length]? =
            some (.User { MotionUser.new uid s.dim with coord := some p.coord }) :=
        List.getElem?_concat_length _ _
      rw [p2u_go_keys _ s.entries.length _ hget1 rfl p.coord.data p.coord.data uid pid α]
      simp

lemma keys_set_user2 {l : List MotionEntry} {ai ti : Nat} {a t : MotionUser}
    (hA : l[ai]? = some (.User a)) (hT : l[ti]? = some (.User t))
    (t2 a2 : MotionUser) (ht2 : t2.id = t.id) (ha2 : a2.id = a.id) :
    ((l.set ti (.User t2)).set ai (.User a2)).map entryKey = l.map entryKey := by
  by_cases hai : ai = ti
  · subst hai
    have hat : a = t := by
      rw [hA] at hT
      simpa using hT
    have hlt : ai < l.length := by
      rcases List.getElem?_eq_some.mp hA with ⟨hw, _⟩
      exact hw
    have hg1 : (l.set ai (.User t2))[ai]? = some (.User t2) :=
      List.getElem?_set_eq_of_lt _ (by simpa using hlt)
    rw [keys_set_user hg1 a2 (by rw [ha2, hat, ht2]), keys_set_user hT t2 ht2]
  · have hg1 : (l.set ti (.User t2))[ai]? = some (.User a) := by
      rw [List.getElem?_set_ne (fun hh => hai hh.symm)]
      exact hA
    rw [keys_set_user hg1 a2 ha2, keys_set_user hT t2 ht2]

lemma u2u_keys (s : MotionSpace) (aid tid : String) (α : ℝ) :
    ((s.apply_user_to_user aid tid α).2.entries.map entryKey) = s.entries.map entryKey := by
  unfold MotionSpace.apply_user_to_user
  cases hfa : findUserIdx s.entries aid with
  | none => rfl
  | some x =>
    obtain ⟨ai, a⟩ := x
    dsimp only
    cases hft : findUserIdx s.entries tid with
    | none => rfl
    | some y =>
      obtain ⟨ti, t⟩ := y
      dsimp only
      cases hac : a.coord with
      | none => rfl
      | some ac =>
        dsimp only
        cases htc : t.coord with
        | none => rfl
        | some tc =>
          dsimp only
          rcases hkk : s.kernel with ⟨γ⟩
          simp only [Kernel.apply]
          by_cases hlen : ac.data.length = tc.data.length
          · simp only [rbf_kernel_ok hlen, apply_kernel2_ok hlen, apply_kernel2_ok hlen.symm]
            exact keys_set_user2 (findUserIdx_get hfa) (findUserIdx_get hft) _ _ rfl rfl
          · simp only [rbf_kernel_err hlen]

lemma apply_interaction_keys (s : MotionSpace) (it : Interaction) :
    (s.entries.map entryKey) <+: ((s.apply_interaction it).2.entries.map entryKey) := by
  unfold MotionSpace.apply_interaction
  cases it.interaction_type with
  | PostToUser => exact p2u_keys s it.dst_id it.src_id it.alpha
  | UserToUser => rw [u2u_keys s it.src_id it.dst_id it.alpha]

lemma applyAndSend_keys (cfg : LoopCfg) (s : MotionSpace) (outs : List MotionOutput)
    (it : Interaction) :
    (s.entries.map entryKey) <+: ((applyAndSend cfg s outs it).1.entries.map entryKey) := by
  unfold applyAndSend
  rcases happ : s.apply_interaction it with ⟨res, s1⟩
  have := apply_interaction_keys s it
  rw [happ] at this
  cases res <;> exact this

lemma sendOut_prefix (cfg : LoopCfg) (outs : List MotionOutput) (o : MotionOutput) :
    outs <+: (sendOut cfg outs o).1 := by
  unfold sendOut
  split
  · exact ⟨[o], rfl⟩
  · exact List.prefix_refl _

lemma applyAndSend_outs (cfg : LoopCfg) (s : MotionSpace) (outs : List MotionOutput)
    (it : Interaction) :
    outs <+: (applyAndSend cfg s outs it).2.1 := by
  unfold applyAndSend
  rcases happ : s.apply_interaction it with ⟨res, s1⟩
  cases res with
  | error e => exact List.prefix_refl _
  | ok r => exact sendOut_prefix cfg outs _

lemma stepInput_keys (cfg : LoopCfg) (s : MotionSpace) (outs : List MotionOutput)
    (i : MotionInput) :
    (s.entries.map entryKey) <+: ((stepInput cfg s outs i).1.entries.map entryKey) := by
  have henter : ∀ (s0 : MotionSpace) (e : MotionEntry),
      (s0.entries.map entryKey) <+: ((s0.enter e).entries.map entryKey) := by
    intro s0 e
    simp only [MotionSpace.enter, List.map_append]
    exact ⟨[entryKey e], rfl⟩
  cases i with
  | User user =>
    unfold stepInput
    dsimp only
    exact henter s _
  | Interaction it =>
    unfold stepInput
    dsimp only
    exact applyAndSend_keys cfg s outs it
  | Post post =>
    unfold stepInput
    dsimp only
    rcases hso : sendOut cfg outs
        (.Entered (.Post (MotionPost.new post.id (VecN.new (cfg.embed post.text)))))
      with ⟨outs1, err⟩
    cases err with
    | some e => exact henter s _
    | none =>
      dsimp only
      split
      · rcases hso2 : sendOut cfg outs1
            (.Entered (.User (MotionUser.new post.user_id
              ((s.enter (.Post (MotionPost.new post.id
                (VecN.new (cfg.embed post.text))))).dim))))
          with ⟨outs2, err2⟩
        cases err2 with
        | some e => exact (henter s _).trans (henter (s.enter _) _)
        | none =>
          exact ((henter s _).trans (henter (s.enter _) _)).trans
            (applyAndSend_keys cfg _ outs2 _)
      · exact (henter s _).trans (applyAndSend_keys cfg _ outs1 _)

lemma stepInput_outs (cfg : LoopCfg) (s : MotionSpace) (outs : List MotionOutput)
    (i : MotionInput) :
    outs <+: (stepInput cfg s outs i).2.1 := by
  cases i with
  | User user =>
    unfold stepInput
    dsimp only
    exact sendOut_prefix cfg outs _
  | Interaction it =>
    unfold stepInput
    dsimp only
    exact applyAndSend_outs cfg s outs it
  | Post post =>
    unfold stepInput
    dsimp only
    rcases hso : sendOut cfg outs
        (.Entered (.Post (MotionPost.new post.id (VecN.new (cfg.embed post.text)))))
      with ⟨outs1, err⟩
    have h1 : outs <+: outs1 := by
      have := sendOut_prefix cfg outs
        (.Entered (.Post (MotionPost.new post.id (VecN.new (cfg.embed post.text)))))
      rw [hso] at this
      exact this
    cases err with
    | some e => exact h1
    | none =>
      dsimp only
      split
      · rcases hso2 : sendOut cfg outs1
            (.Entered (.User (MotionUser.new post.user_id
              ((s.enter (.Post (MotionPost.new post.id
                (VecN.new (cfg.embed post.text))))).dim))))
          with ⟨outs2, err2⟩
        have h2 : outs1 <+: outs2 := by
          have := sendOut_prefix cfg outs1
            (.Entered (.User (MotionUser.new post.user_id
              ((s.enter (.Post (MotionPost.new post.id
                (VecN.new (cfg.embed post.text))))).dim))))
          rw [hso2] at this
          exact this
        cases err2 with
        | some e => exact h1.trans h2
        | none => exact (h1.trans h2).trans (applyAndSend_outs cfg _ outs2 _)
      · exact h1.trans (applyAndSend_outs cfg _ outs1 _)

lemma p2u_ok_shape {s : MotionSpace} {γ : ℝ} {uid pid : String} {α : ℝ}
    {r : InteractionResult} {s' : MotionSpace}
    (hk : s.kernel = .RBF γ)
    (h : s.apply_post_to_user uid pid α = (.ok r, s')) :
    ∃ ud pd : List ℝ,
      postDataOf s pid = some pd ∧
      ud.length = pd.length ∧
      (∀ d, userDataOf s uid = some d → ud = d) ∧
      r.similarity = Real.exp (-γ * sqDist ud pd) ∧
      r.weight = 1 - Real.exp (-α * r.similarity) ∧
      userDataOf s' uid = some (List.zipWith
        (fun u p => u * (1 - r.weight) + p * r.weight) ud pd) ∧
      postDataOf s' pid = some pd ∧
      s'.kernel = .RBF γ := by
  unfold MotionSpace.apply_post_to_user at h
  cases hfp : findPostIdx s.entries pid with
  | none => rw [hfp] at h; simp at h
  | some x =>
    obtain ⟨pi, p⟩ := x
    rw [hfp] at h
    dsimp only at h
    cases hfu : findUserIdx s.entries uid with
    | some y =>
      obtain ⟨ui, u0⟩ := y
      rw [hfu] at h
      dsimp only at h
      have hgetu := findUserIdx_get hfu
      have huid := findUserIdx_id hfu
      cases hc : u0.coord with
      | some c =>
        rw [hc] at h
        dsimp only at h
        by_cases hlen : c.data.length = p.coord.data.length
        · rw [p2u_go_ok_eq hk s.entries ui u0 hlen uid pid α] at h
          simp only [Prod.mk.injEq, Except.ok.injEq] at h
          obtain ⟨hr, hs⟩ := h
          subst hr
          subst hs
          refine ⟨c.data, p.coord.data, by simp [postDataOf, hfp], hlen, ?_, rfl, rfl, ?_, ?_, hk⟩
          · intro d hd
            simp only [userDataOf, hfu, hc, Option.bind_eq_bind, Option.some_bind,
              Option.map_some', Option.some.injEq] at hd
            exact hd
          · have hfind := findUserIdx_set_user hfu
              { u0 with
                coord := some ((VecN.new (List.zipWith
                  (fun uu pp => uu * (1 - (1 - Real.exp (-α * Real.exp (-γ * sqDist c.data p.coord.data)))) +
                    pp * (1 - Real.exp (-α * Real.exp (-γ * sqDist c.data p.coord.data))))
                  c.data p.coord.data)).normalizeRun.2),
                motion := (1 - 0.02) * u0.motion +
                  1.0 * (1 - Real.exp (-α * Real.exp (-γ * sqDist c.data p.coord.data))) }
              huid
            simp only [userDataOf]
            rw [hfind]
            simp [normalizeRun_data, VecN.new]
          · simp only [postDataOf]
            rw [findPostIdx_set_user hgetu _ pid, hfp]
            rfl
        · rw [p2u_go_err hk s.entries ui u0 hlen uid pid α] at h
          simp at h
      | none =>
        rw [hc] at h
        dsimp only at h
        rw [p2u_go_ok_eq hk (s.entries.set ui (.User { u0 with coord := some p.coord }))
          ui { u0 with coord := some p.coord } rfl uid pid α] at h
        rw [List.set_set] at h
        simp only [Prod.mk.injEq, Except.ok.injEq] at h
        obtain ⟨hr, hs⟩ := h
        subst hr
        subst hs
        refine ⟨p.coord.data, p.coord.data, by simp [postDataOf, hfp], rfl, ?_, rfl, rfl, ?_, ?_, hk⟩
        · intro d hd
          simp [userDataOf, hfu, hc] at hd
        · have hfind := findUserIdx_set_user hfu
            { u0 with
              coord := some ((VecN.new (List.zipWith
                (fun uu pp => uu * (1 - (1 - Real.exp (-α * Real.exp (-γ * sqDist p.coord.data p.coord.data)))) +
                  pp * (1 - Real.exp (-α * Real.exp (-γ * sqDist p.coord.data p.coord.data))))
                p.coord.data p.coord.data)).normalizeRun.2),
              motion := (1 - 0.02) * u0.motion +
                1.0 * (1 - Real.exp (-α * Real.exp (-γ * sqDist p.coord.data p.coord.data))) }
            huid
          simp only [userDataOf]
          rw [hfind]
          simp [normalizeRun_data, VecN.new]
        · simp only [postDataOf]
          rw [findPostIdx_set_user hgetu _ pid, hfp]
          rfl
    | none =>
      rw [hfu] at h
      dsimp only at h
      simp only [MotionUser.new] at h
      have heq3 := @p2u_go_ok_eq s γ hk
        (s.entries ++ [MotionEntry.User ⟨uid, some p.coord, 0⟩])
        s.entries.length ⟨uid, some p.coord, 0⟩ p.coord.data p.coord.data rfl uid pid α
      rw [heq3] at h
      rw [set_append_len] at h
      simp only [Prod.mk.injEq, Except.ok.injEq] at h
      obtain ⟨hr, hs⟩ := h
      subst hr
      subst hs
      refine ⟨p.coord.data, p.coord.data, by simp [postDataOf, hfp], rfl, ?_, rfl, rfl, ?_, ?_, hk⟩
      · intro d hd
        simp [userDataOf, hfu] at hd
      · have hfind := findUserIdx_append_none hfu
          ⟨uid, some ((VecN.new (List.zipWith
              (fun uu pp => uu * (1 - (1 - Real.exp (-α * Real.exp (-γ * sqDist p.coord.data p.coord.data)))) +
                pp * (1 - Real.exp (-α * Real.exp (-γ * sqDist p.coord.data p.coord.data))))
              p.coord.data p.coord.data)).normalizeRun.2),
            (1 - 0.02) * 0 +
              1.0 * (1 - Real.exp (-α * Real.exp (-γ * sqDist p.coord.data p.coord.data)))⟩
          rfl
        simp only [userDataOf]
        rw [hfind]
        simp [normalizeRun_data, VecN.new]
      · simp only [postDataOf]
        rw [findPostIdx_append hfp]
        rfl

lemma stepInput_interaction_ok {cfg : LoopCfg} {s : MotionSpace} {outs : List MotionOutput}
    {it : Interaction} {s1 : MotionSpace} {outs1 : List MotionOutput}
    (h : stepInput cfg s outs (.Interaction it) = (s1, outs1, none)) :
    ∃ r, outs1 = outs ++ [.InteractionApplied r] := by
  unfold stepInput applyAndSend at h
  dsimp only at h
  rcases happ : s.apply_interaction it with ⟨res, s2⟩
  rw [happ] at h
  cases res with
  | error e => simp at h
  | ok r =>
    dsimp only at h
    unfold sendOut at h
    split at h
    · simp only [Prod.mk.injEq] at h
      exact ⟨r, h.2.1.symm⟩
    · simp at h

lemma sendOut_no_updated {cfg : LoopCfg} {outs : List MotionOutput} (o : MotionOutput)
    (h : ∀ e : MotionEntry, MotionOutput.Updated e ∉ outs)
    (ho : ∀ e : MotionEntry, o ≠ .Updated e) :
    ∀ e : MotionEntry, MotionOutput.Updated e ∉ (sendOut cfg outs o).1 := by
  intro e
  unfold sendOut
  split
  · intro hmem
    rcases List.mem_append.mp hmem with hm | hm
    · exact h e hm
    · exact ho e (List.mem_singleton.mp hm).symm
  · exact h e

lemma applyAndSend_no_updated {cfg : LoopCfg} {s : MotionSpace} {outs : List MotionOutput}
    (it : Interaction) (h : ∀ e : MotionEntry, MotionOutput.Updated e ∉ outs) :
    ∀ e : MotionEntry, MotionOutput.Updated e ∉ (applyAndSend cfg s outs it).2.1 := by
  unfold applyAndSend
  rcases happ : s.apply_interaction it with ⟨res, s2⟩
  cases res with
  | error e2 => exact h
  | ok r => exact sendOut_no_updated _ h (by intro e2; simp)

lemma stepInput_no_updated (cfg : LoopCfg) (s : MotionSpace) (outs : List MotionOutput)
    (i : MotionInput) (h : ∀ e : MotionEntry, MotionOutput.Updated e ∉ outs) :
    ∀ e : MotionEntry, MotionOutput.Updated e ∉ (stepInput cfg s outs i).2.1 := by
  cases i with
  | User user =>
    unfold stepInput
    dsimp only
    exact sendOut_no_updated _ h (by intro e2; simp)
  | Interaction it =>
    unfold stepInput
    exact applyAndSend_no_updated it h
  | Post post =>
    unfold stepInput
    dsimp only
    rcases hso : sendOut cfg outs
        (.Entered (.Post (MotionPost.new post.id (VecN.new (cfg.embed post.text)))))
      with ⟨outs1, err⟩
    have h1 : ∀ e : MotionEntry, MotionOutput.Updated e ∉ outs1 := by
      have := @sendOut_no_updated cfg outs
        (.Entered (.Post (MotionPost.new post.id (VecN.new (cfg.embed post.text)))))
        h (by intro e2; simp)
      rw [hso] at this
      exact this
    cases err with
    | some e => exact h1
    | none =>
      dsimp only
      split
      · rcases hso2 : sendOut cfg outs1
            (.Entered (.User (MotionUser.new post.user_id
              ((s.enter (.Post (MotionPost.new post.id
                (VecN.new (cfg.embed post.text))))).dim))))
          with ⟨outs2, err2⟩
        have h2 : ∀ e : MotionEntry, MotionOutput.Updated e ∉ outs2 := by
          have := @sendOut_no_updated cfg outs1
            (.Entered (.User (MotionUser.new post.user_id
              ((s.enter (.Post (MotionPost.new post.id
                (VecN.new (cfg.embed post.text))))).dim))))
            h1 (by intro e2; simp)
          rw [hso2] at this
          exact this
        cases err2 with
        | some e => exact h2
        | none => exact applyAndSend_no_updated _ h2
      · exact applyAndSend_no_updated _ h1

lemma core_loop_no_updated (cfg : LoopCfg) (inputs : List MotionInput) :
    ∀ (s : MotionSpace) (outs : List MotionOutput),
      (∀ e : MotionEntry, MotionOutput.Updated e ∉ outs) →
      ∀ e : MotionEntry, MotionOutput.Updated e ∉ (core_loop cfg s outs inputs).2.1 := by
  induction inputs with
  | nil => intro s outs h; exact h
  | cons i rest ih =>
    intro s outs h e
    simp only [core_loop]
    rcases hst : stepInput cfg s outs i with ⟨s1, outs1, err⟩
    have hstep := stepInput_no_updated cfg s outs i h
    rw [hst] at hstep
    cases err with
    | none => exact ih s1 outs1 hstep e
    | some e2 => exact hstep e

/-! ## Claim theorems -/

/-- Claim C4, counterexample part is separate; this is the amended claim:
starting from a fresh space, under any sequence of `enter` (of fresh,
motion-0 users and arbitrary posts), `apply_post_to_user` and
`apply_user_to_user` operations with non-negative alpha, every user's
motion stays non-negative.  (The original claim allowed every alpha; a
negative alpha makes the weight negative and breaks it.) -/
theorem C4_motions_nonneg_amended (s : MotionSpace) (h : Reachable s) : motionsOk s := by
  induction h with
  | init dim =>
    intro u hu
    simp [MotionSpace.new] at hu
  | enter_user s id dim hs ih =>
    intro u hu
    simp only [MotionSpace.enter] at hu
    rcases List.mem_append.mp hu with hm | hm
    · exact ih u hm
    · simp only [List.mem_singleton, MotionEntry.User.injEq] at hm
      subst hm
      simp [MotionUser.new]
  | enter_post s p hs ih =>
    intro u hu
    simp only [MotionSpace.enter] at hu
    rcases List.mem_append.mp hu with hm | hm
    · exact ih u hm
    · simp at hm
  | p2u s uid pid alpha hs hα ih => exact p2u_motions hα ih
  | u2u s aid tid alpha hs hα ih => exact u2u_motions hα ih

/-- Witness for C4's amended theorem at a concrete reachable space. -/
theorem C4_motions_nonneg_witness :
    motionsOk ((MotionSpace.new 1).enter (.User (MotionUser.new "a" 1))) :=
  C4_motions_nonneg_amended _ (Reachable.enter_user _ "a" 1 (Reachable.init 1))

/-- Claim C5: `apply_user_to_user` fails with `UserNotFound` naming the
missing id when a participant is absent (actor looked up first, and the
space is returned untouched — no auto-creation), and when both are present
but a coordinate is missing it fails with `CoordNotLoaded` naming the
first missing participant (actor checked before target); in particular two
freshly created users with no coordinates always fail with
`CoordNotLoaded` naming the actor. -/
theorem C5_user_to_user_errors (s : MotionSpace) (actor target : String) (alpha : ℝ) :
    (findUserIdx s.entries actor = none →
      s.apply_user_to_user actor target alpha = (.error (.UserNotFound actor), s)) ∧
    (∀ i a, findUserIdx s.entries actor = some (i, a) →
      findUserIdx s.entries target = none →
      s.apply_user_to_user actor target alpha = (.error (.UserNotFound target), s)) ∧
    (∀ i a j t, findUserIdx s.entries actor = some (i, a) →
      findUserIdx s.entries target = some (j, t) → a.coord = none →
      s.apply_user_to_user actor target alpha = (.error (.CoordNotLoaded actor), s)) ∧
    (∀ i a j t c, findUserIdx s.entries actor = some (i, a) →
      findUserIdx s.entries target = some (j, t) → a.coord = some c → t.coord = none →
      s.apply_user_to_user actor target alpha = (.error (.CoordNotLoaded target), s)) ∧
    (∀ (dim d1 d2 : Nat) (k : Kernel),
      MotionSpace.apply_user_to_user
        ⟨dim, [.User (MotionUser.new actor d1), .User (MotionUser.new target d2)], k⟩
        actor target alpha =
      (.error (.CoordNotLoaded actor),
       ⟨dim, [.User (MotionUser.new actor d1), .User (MotionUser.new target d2)], k⟩)) := by
  refine ⟨?_, ?_, ?_, ?_, ?_⟩
  · intro h
    simp [MotionSpace.apply_user_to_user, h]
  · intro i a ha hb
    simp [MotionSpace.apply_user_to_user, ha, hb]
  · intro i a j t ha hb hc
    simp [MotionSpace.apply_user_to_user, ha, hb, hc]
  · intro i a j t c ha hb hc hd
    simp [MotionSpace.apply_user_to_user, ha, hb, hc, hd]
  · intro dim d1 d2 k
    by_cases hat : actor = target
    · subst hat
      simp [MotionSpace.apply_user_to_user, findUserIdx, MotionUser.new]
    · simp [MotionSpace.apply_user_to_user, findUserIdx, MotionUser.new, hat]

/-- Witness for C5 on the empty space. -/
theorem C5_user_to_user_errors_witness :
    MotionSpace.apply_user_to_user (MotionSpace.new 1) "a" "b" 1 =
      (.error (.UserNotFound "a"), MotionSpace.new 1) :=
  (C5_user_to_user_errors (MotionSpace.new 1) "a" "b" 1).1 rfl

/-- Claim C6: when processing of one input ends in a fault, the loop
returns that error immediately (the remaining inputs are not consumed),
the state at the fault is returned as-is — every entry identity present
before the input is still present, nothing is removed or rolled back —
and the outputs already delivered stay delivered. -/
theorem C6_fault_stops_loop (cfg : LoopCfg) (s : MotionSpace) (outs : List MotionOutput)
    (i : MotionInput) (rest : List MotionInput) (s1 : MotionSpace)
    (outs1 : List MotionOutput) (e : CoreError)
    (h : stepInput cfg s outs i = (s1, outs1, some e)) :
    core_loop cfg s outs (i :: rest) = (s1, outs1, some e) ∧
    (s.entries.map entryKey) <+: (s1.entries.map entryKey) ∧
    outs <+: outs1 := by
  refine ⟨?_, ?_, ?_⟩
  · simp only [core_loop]
    rw [h]
  · have hkeys := stepInput_keys cfg s outs i
    rw [h] at hkeys
    exact hkeys
  · have houts := stepInput_outs cfg s outs i
    rw [h] at houts
    exact houts

/-- Witness for C6: a `UserToUser` interaction on the fresh space faults
with `UserNotFound` and stops the loop right there. -/
theorem C6_fault_stops_loop_witness :
    core_loop cfg9 (MotionSpace.new 1) []
        [.Interaction ⟨.UserToUser, "a", "b", 1⟩, .User ⟨"x"⟩] =
      (MotionSpace.new 1, [], some (.UserNotFound "a")) ∧
    ((MotionSpace.new 1).entries.map entryKey) <+:
      ((MotionSpace.new 1).entries.map entryKey) ∧
    ([] : List MotionOutput) <+: [] :=
  C6_fault_stops_loop cfg9 (MotionSpace.new 1) [] _ _ _ _ _ rfl

/-- Claim C7, amended: `add`, `sub`, `dot` and `Kernel::apply` fail with
`DimensionMismatch` carrying the two true lengths whenever the lengths
differ, and succeed with the full elementwise result on equal lengths;
`scale`, however, takes a single slice and a scalar and can never fail
(the original claim listed `scale` among the two-operand operations that
fail with `DimensionMismatch`). -/
theorem C7_dimension_mismatch_amended (a b : List ℝ) (k : Kernel) (c : ℝ) :
    (a.length ≠ b.length →
      add a b = .error (.DimensionMismatch a.length b.length) ∧
      sub a b = .error (.DimensionMismatch a.length b.length) ∧
      dot a b = .error (.DimensionMismatch a.length b.length) ∧
      k.apply a b = .error (.DimensionMismatch a.length b.length)) ∧
    (a.length = b.length →
      add a b = .ok (List.zipWith (fun x y => x + y) a b) ∧
      sub a b = .ok (List.zipWith (fun x y => x - y) a b) ∧
      dot a b = .ok (List.zipWith (fun x y => x * y) a b).sum ∧
      ∃ r : ℝ, k.apply a b = .ok r) ∧
    scale a c = a.map fun x => x * c := by
  refine ⟨fun h => ⟨?_, ?_, ?_, ?_⟩, fun h => ⟨?_, ?_, ?_, ?_⟩, rfl⟩
  · simp [add, h]
  · simp [sub, h]
  · simp [dot, h]
  · cases k with
    | RBF γ => exact rbf_kernel_err h
  · simp [add, h]
  · simp [sub, h]
  · simp [dot, h]
  · cases k with
    | RBF γ => exact ⟨_, rbf_kernel_ok h⟩

/-- Witness for C7's amended theorem at concrete mismatched lengths. -/
theorem C7_dimension_mismatch_witness :
    add [(1 : ℝ)] [2, 3] = .error (.DimensionMismatch 1 2) ∧
    sub [(1 : ℝ)] [2, 3] = .error (.DimensionMismatch 1 2) ∧
    dot [(1 : ℝ)] [2, 3] = .error (.DimensionMismatch 1 2) ∧
    Kernel.apply (.RBF 2) [(1 : ℝ)] [2, 3] = .error (.DimensionMismatch 1 2) :=
  (C7_dimension_mismatch_amended [(1 : ℝ)] [2, 3] (.RBF 2) 1).1 (by simp)

/-- Counterexample to C7 as stated: `scale` takes one slice and a scalar,
its result type is a plain list, so on the very inputs where `add` fails
with `DimensionMismatch`, `scale` (applied to the left operand) just
returns the fully scaled list — it cannot fail at all. -/
theorem C7_scale_total_counterexample :
    scale [(1 : ℝ)] 2 = [2] ∧
    add [(1 : ℝ)] [2, 3] = .error (.DimensionMismatch 1 2) := by
  constructor
  · norm_num [scale]
  · simp [add]

/-- Claim C8: a run of N interaction inputs that the loop fully processes
(no error) appends exactly N `InteractionApplied` events, one per input,
in the inputs' relative order. -/
theorem C8_n_interactions_in_order (cfg : LoopCfg) (s : MotionSpace)
    (outs0 : List MotionOutput) (its : List Interaction) (s' : MotionSpace)
    (outs' : List MotionOutput)
    (h : core_loop cfg s outs0 (its.map MotionInput.Interaction) = (s', outs', none)) :
    ∃ rs : List InteractionResult, rs.length = its.length ∧
      outs' = outs0 ++ rs.map MotionOutput.InteractionApplied := by
  induction its generalizing s outs0 with
  | nil =>
    simp only [List.map_nil, core_loop, Prod.mk.injEq] at h
    exact ⟨[], rfl, by simp [h.2.1.symm]⟩
  | cons it rest ih =>
    simp only [List.map_cons, core_loop] at h
    rcases hst : stepInput cfg s outs0 (.Interaction it) with ⟨s1, outs1, err⟩
    rw [hst] at h
    cases err with
    | some e => simp at h
    | none =>
      dsimp only at h
      obtain ⟨r, hr⟩ := stepInput_interaction_ok hst
      obtain ⟨rs, hlen, houts⟩ := ih s1 outs1 h
      subst hr
      refine ⟨r :: rs, by simp [hlen], ?_⟩
      rw [houts]
      simp

/-- Claim C10: the processing loop never emits an `Updated` output event,
even though the output type declares that variant. -/
theorem C10_never_updated (cfg : LoopCfg) (s : MotionSpace) (inputs : List MotionInput)
    (e : MotionEntry) : MotionOutput.Updated e ∉ (core_loop cfg s [] inputs).2.1 :=
  core_loop_no_updated cfg inputs s [] (by simp) e

/-- Witness for C10 at a concrete run. -/
theorem C10_never_updated_witness :
    MotionOutput.Updated (.User (MotionUser.new "a" 1)) ∉
      (core_loop cfg9 (MotionSpace.new 1) [] [.User ⟨"a"⟩]).2.1 :=
  C10_never_updated cfg9 (MotionSpace.new 1) [.User ⟨"a"⟩] _

lemma sqrt_four : Real.sqrt 4 = 2 := by
  rw [show (4 : ℝ) = 2 ^ 2 by norm_num]
  exact Real.sqrt_sq (by norm_num)

/-- Claim C3 (code bug): at the failing input — post "p" at [2], user "u"
at [2], alpha = 1 — the Post→User update succeeds but persists the raw
blend [2] as the user's coordinate data, although the blend's norm is 2,
which is neither 0 nor 1: `VecN::normalize` only fills the lazy cache and
never rewrites `data`, so the persisted coordinate is not unit-normalized
even though normalization did not fail. -/
theorem C3_unnormalized_coord_bug :
    ∃ (r : InteractionResult) (s' : MotionSpace),
      MotionSpace.apply_post_to_user S3 "u" "p" 1 = (.ok r, s') ∧
      userDataOf s' "u" = some [2] ∧
      normOf [2] = 2 ∧ 1 < normOf [2] := by
  simp only [S3, MotionSpace.apply_post_to_user, p2u_go, findPostIdx, findUserIdx,
    Kernel.apply, rbf_kernel, apply_kernel2, MotionPost.new, VecN.new,
    List.length_cons, List.length_nil, ne_eq, not_true_eq_false, if_false,
    eq_self_iff_true, if_true, ite_true, ite_false, Option.map_some',
    List.set_cons_succ, List.set_cons_zero, List.zipWith_cons_cons, List.zipWith_nil_right,
    not_false_eq_true, List.zipWith_nil, String.reduceEq, reduceIte]
  refine ⟨_, _, rfl, ?_, ?_, ?_⟩
  · simp only [userDataOf, findUserIdx, String.reduceEq, reduceIte, Option.map_some',
      Option.bind_eq_bind, Option.some_bind, normalizeRun_data, Option.some.injEq]
    rw [List.cons.injEq]
    exact ⟨by ring, rfl⟩
  · norm_num [normOf, sqrt_four]
  · norm_num [normOf, sqrt_four]

/-- Claim C2 (code bug): at the failing input — users "a" and "b" both at
[2], alpha = 1 — `apply_user_to_user` returns exactly one result with the
claimed similarity 1, weight `1 - exp (-1)`, and updates both motions with
the claimed asymmetric gains (target 1.0, actor 0.5, decay 0.02); but both
persisted coordinates are the raw symmetric blends [2], of norm 2 ≠ 1:
the blends are never unit-normalized (`VecN::normalize` only fills a
cache), contradicting the claim's "each independently best-effort
unit-normalized". -/
theorem C2_unnormalized_blend_bug :
    ∃ (r : InteractionResult) (s' : MotionSpace),
      MotionSpace.apply_user_to_user S2 "a" "b" 1 = (.ok r, s') ∧
      r.src_id = "a" ∧ r.dst_id = "b" ∧
      r.similarity = 1 ∧ r.weight = 1 - Real.exp (-1) ∧
      userDataOf s' "a" = some [2] ∧ userDataOf s' "b" = some [2] ∧
      userMotion s' "b" = some (1 - Real.exp (-1)) ∧
      userMotion s' "a" = some (0.5 * (1 - Real.exp (-1))) ∧
      normOf [2] = 2 ∧ 1 < normOf [2] := by
  simp only [S2, MotionSpace.apply_user_to_user, findUserIdx,
    Kernel.apply, rbf_kernel, apply_kernel2, VecN.new,
    List.length_cons, List.length_nil, ne_eq, not_true_eq_false, if_false,
    eq_self_iff_true, if_true, ite_true, ite_false, Option.map_some',
    List.set_cons_succ, List.set_cons_zero, List.zipWith_cons_cons, List.zipWith_nil_right,
    not_false_eq_true, List.zipWith_nil, String.reduceEq, reduceIte]
  refine ⟨_, _, rfl, rfl, rfl, ?_, ?_, ?_, ?_, ?_, ?_, ?_, ?_⟩
  · simp [sqDist]
  · simp [sqDist]
  · simp only [userDataOf, findUserIdx, String.reduceEq, reduceIte, Option.map_some',
      Option.bind_eq_bind, Option.some_bind, normalizeRun_data, Option.some.injEq]
    rw [List.cons.injEq]
    exact ⟨by ring, rfl⟩
  · simp only [userDataOf, findUserIdx, String.reduceEq, reduceIte, Option.map_some',
      Option.bind_eq_bind, Option.some_bind, normalizeRun_data, Option.some.injEq]
    rw [List.cons.injEq]
    exact ⟨by ring, rfl⟩
  · simp only [userMotion, findUserIdx, String.reduceEq, reduceIte, Option.map_some',
      Option.some.injEq]
    norm_num [sqDist]
  · simp only [userMotion, findUserIdx, String.reduceEq, reduceIte, Option.map_some',
      Option.some.injEq]
    norm_num [sqDist]
  · norm_num [normOf, sqrt_four]
  · norm_num [normOf, sqrt_four]

/-- Claim C4, counterexample: the claim quantifies over every alpha, but
with alpha = -1 a single Post→User interaction on a reachable space (a
fresh space into which one post was entered) drives the auto-created
user's motion to `1 - exp 1 < 0`. -/
theorem C4_negative_alpha_counterexample :
    (userMotion (S4.apply_post_to_user "u" "p" (-1)).2 "u").getD 0 < 0 := by
  simp only [S4, MotionSpace.new, MotionSpace.enter, List.nil_append,
    MotionSpace.apply_post_to_user, p2u_go, findPostIdx, findUserIdx, MotionPost.new,
    MotionUser.new, VecN.new, Kernel.apply, rbf_kernel, apply_kernel2,
    List.length_cons, List.length_nil, ne_eq, not_true_eq_false, if_false,
    eq_self_iff_true, if_true, ite_true, ite_false, Option.map_some', Option.map_none',
    List.cons_append, List.set_cons_succ, List.set_cons_zero,
    List.zipWith_cons_cons, List.zipWith_nil_right, not_false_eq_true, List.zipWith_nil,
    String.reduceEq, reduceIte, userMotion, Option.getD_some]
  have h0 : sqDist [(1 : ℝ)] [1] = 0 := sqDist_self _
  rw [h0]
  norm_num

/-- Claim C1: cold start.  On a fresh space, one Post input (any text,
any embedding function, delivery succeeding) emits exactly, in order,
`Entered(post)`, `Entered(user)` (the unseen user is auto-created), and
one `InteractionApplied` whose similarity is 1 and whose weight is
`1 - exp (-0.5)` — the synthesized Post→User interaction uses alpha = 0.5
and the user is seeded with the post's coordinate. -/
theorem C1_cold_start (embed : String → List ℝ) (dim : Nat) (P1 U1 t : String) :
    ∃ (pe : MotionPost) (ue : MotionUser) (r : InteractionResult) (s' : MotionSpace),
      core_loop ⟨embed, fun _ => true⟩ (MotionSpace.new dim) [] [.Post ⟨P1, U1, t⟩] =
        (s', [.Entered (.Post pe), .Entered (.User ue), .InteractionApplied r], none) ∧
      pe.id = P1 ∧ ue.id = U1 ∧ r.src_id = P1 ∧ r.dst_id = U1 ∧
      r.similarity = 1 ∧ r.weight = 1 - Real.exp (-(0.5 : ℝ)) := by
  simp only [core_loop, stepInput, MotionSpace.new, MotionSpace.enter, sendOut, applyAndSend,
    MotionSpace.apply_interaction, MotionSpace.apply_post_to_user, p2u_go, findPostIdx,
    findUserIdx, Kernel.apply, rbf_kernel, apply_kernel2, MotionPost.new, MotionUser.new,
    isUserWithId, List.length_nil, List.nil_append, List.all_cons, List.all_nil,
    Bool.not_false, Bool.and_true, if_true, eq_self_iff_true, ne_eq, not_true_eq_false,
    if_false, List.set_cons_succ, List.set_cons_zero, Option.map_some', ite_true, ite_false,
    Bool.not_eq_true]
  refine ⟨_, _, _, _, rfl, rfl, rfl, rfl, rfl, ?_, ?_⟩
  · simp [sqDist_self]
  · simp [sqDist_self]

/-- Claim C9: two successive Post→User interactions for the same user and
post with the same non-negative alpha have non-decreasing similarity (the
kernel is RBF with the program's non-negative gamma; the claim's
non-orthogonality proviso is not even needed). -/
theorem C9_similarity_monotone {s s1 s2 : MotionSpace} {uid pid : String}
    {γ α : ℝ} {r1 r2 : InteractionResult}
    (hγ : 0 ≤ γ) (hk : s.kernel = .RBF γ) (hα : 0 ≤ α)
    (h1 : s.apply_post_to_user uid pid α = (.ok r1, s1))
    (h2 : s1.apply_post_to_user uid pid α = (.ok r2, s2)) :
    r1.similarity ≤ r2.similarity := by
  obtain ⟨ud, pd, hpd, hlen, hud, hsim1, hw1, hudata1, hpdata1, hk1⟩ := p2u_ok_shape hk h1
  obtain ⟨ud2, pd2, hpd2, hlen2, hud2, hsim2, hw2, hudata2, hpdata2, hk2⟩ := p2u_ok_shape hk1 h2
  have hpdeq : pd2 = pd := Option.some.inj (hpd2.symm.trans hpdata1)
  have hudeq : ud2 = List.zipWith (fun u p => u * (1 - r1.weight) + p * r1.weight) ud pd :=
    hud2 _ hudata1
  have hD2 : sqDist ud2 pd2 = (1 - r1.weight) * (1 - r1.weight) * sqDist ud pd := by
    rw [hudeq, hpdeq]
    exact sqDist_blend r1.weight ud pd hlen
  have hDnn : 0 ≤ sqDist ud pd := sqDist_nonneg _ _
  have hwge : 0 ≤ r1.weight := by
    rw [hw1]
    exact weight_nonneg hα (by rw [hsim1]; exact Real.exp_pos _)
  have hwlt : r1.weight < 1 := by
    rw [hw1]
    exact weight_lt_one _
  rw [hsim1, hsim2, hD2]
  apply Real.exp_le_exp.mpr
  nlinarith [mul_nonneg hγ hDnn, mul_nonneg (mul_nonneg hγ hDnn) hwge]

lemma S9_run1 : MotionSpace.apply_post_to_user S9 "u" "p" 0 =
    (.ok ⟨"p", "u", 0, 1⟩, S9b) := by
  norm_num [S9, S9b, MotionSpace.apply_post_to_user, p2u_go, findPostIdx, findUserIdx,
    Kernel.apply, rbf_kernel, apply_kernel2, MotionPost.new, VecN.new, VecN.normalizeRun,
    VecN.normRun, normOf, sqDist, Real.exp_zero, Real.sqrt_one, String.reduceEq, reduceIte]

lemma S9_run2 : MotionSpace.apply_post_to_user S9b "u" "p" 0 =
    (.ok ⟨"p", "u", 0, 1⟩, S9b) := by
  norm_num [S9b, MotionSpace.apply_post_to_user, p2u_go, findPostIdx, findUserIdx,
    Kernel.apply, rbf_kernel, apply_kernel2, MotionPost.new, VecN.new, VecN.normalizeRun,
    VecN.normRun, normOf, sqDist, Real.exp_zero, Real.sqrt_one, String.reduceEq, reduceIte]

lemma S9_loop : core_loop cfg9 S9 [] (its9.map MotionInput.Interaction) =
    (S9b, [.InteractionApplied ⟨"p", "u", 0, 1⟩], none) := by
  simp [its9, core_loop, stepInput, applyAndSend, MotionSpace.apply_interaction,
    S9_run1, sendOut, cfg9]

/-- Witness for C9 on a concrete pair of successive interactions. -/
theorem C9_similarity_monotone_witness :
    (InteractionResult.mk "p" "u" 0 1).similarity ≤
      (InteractionResult.mk "p" "u" 0 1).similarity :=
  C9_similarity_monotone (by norm_num) (show S9.kernel = .RBF 2 from rfl) le_rfl S9_run1 S9_run2

/-- Witness for C8 on a concrete fully processed run of one interaction. -/
theorem C8_n_interactions_witness :
    ∃ rs : List InteractionResult, rs.length = its9.length ∧
      [MotionOutput.InteractionApplied ⟨"p", "u", 0, 1⟩] =
        [] ++ rs.map MotionOutput.InteractionApplied :=
  C8_n_interactions_in_order cfg9 S9 [] its9 S9b _ S9_loop

end Motion
